import Mathlib

/-!
Verification development for `unity_godot_material_converter.py`.

Python strings are embedded as `List Char` (`PyStr`), Python dicts as
insertion-ordered association lists, the filesystem trees walked by
`os.walk` as explicit lists of entries in traversal order, and Python
floats as exact rationals.  Each stateful function of the converter is
embedded as a pure function with explicit cache state.
-/

set_option autoImplicit false

abbrev PyStr := List Char

/-- The character list of a Lean string literal. -/
def pstr (s : String) : PyStr := s.data

/-- Python regex `\s` over ASCII (space, tab, newline, return, vtab, formfeed). -/
def pySpace (c : Char) : Bool :=
  c = ' ' || c = '\t' || c = '\n' || c = '\r' || c = '\x0b' || c = '\x0c'

/-- Python regex `\w` over ASCII. -/
def isWordChar (c : Char) : Bool := c.isAlpha || c.isDigit || c = '_'

/-- The character class `[\d.]` of the float-value regex. -/
def isNumChar (c : Char) : Bool := c.isDigit || c = '.'

/-- Python `str.lower()` (ASCII). -/
def lowerStr (s : PyStr) : PyStr := s.map Char.toLower

/-- Python substring test `needle in hay`. -/
def strContains (hay needle : PyStr) : Bool :=
  match hay with
  | [] => needle.isEmpty
  | c :: t => needle.isPrefixOf (c :: t) || strContains t needle

/-- Python dict lookup `d.get(k)` on an insertion-ordered association list. -/
def dictGet {α : Type} (d : List (PyStr × α)) (k : PyStr) : Option α :=
  match d with
  | [] => none
  | (k2, v) :: t => if k2 = k then some v else dictGet t k

/-- Python dict assignment `d[k] = v`: overwrite in place, else append. -/
def dictSet {α : Type} (d : List (PyStr × α)) (k : PyStr) (v : α) : List (PyStr × α) :=
  match d with
  | [] => [(k, v)]
  | (k2, v2) :: t => if k2 = k then (k, v) :: t else (k2, v2) :: dictSet t k v

theorem dictGet_dictSet {α : Type} (d : List (PyStr × α)) (k : PyStr) (v : α) :
    dictGet (dictSet d k v) k = some v := by
  induction d with
  | nil => simp [dictGet, dictSet]
  | cons h t ih =>
    obtain ⟨k2, v2⟩ := h
    by_cases hk : k2 = k
    · simp [dictGet, dictSet, hk]
    · simp [dictGet, dictSet, hk, ih]

/-! ## GUID Resolver (`find_meta_file_by_guid`)

The Unity project tree under `project_root` is a list of
`(full path, optional decodable text content)` entries in `os.walk`
order; `none` content stands for a file whose read raises
`UnicodeDecodeError`. -/

structure MetaFS where
  files : List (PyStr × Option PyStr)

/-- `os.path.exists`. -/
def pathExists (fs : MetaFS) (p : PyStr) : Bool :=
  fs.files.any (fun e => e.1 == p)

/-- The `os.walk` loop of `find_meta_file_by_guid`: scan `.meta` files in
traversal order for the literal `guid: <guid>` marker; skip undecodable
files; on a marker hit return the path with `.meta` stripped provided
that asset exists, else keep scanning. -/
def guidWalkSearch (fs : MetaFS) (entries : List (PyStr × Option PyStr)) (guid : PyStr) :
    Option PyStr :=
  match entries with
  | [] => none
  | (p, content) :: rest =>
    if (pstr ".meta").isSuffixOf p then
      match content with
      | some text =>
        if strContains text (pstr "guid: " ++ guid) then
          let assetPath := p.take (p.length - 5)
          if pathExists fs assetPath then some assetPath
          else guidWalkSearch fs rest guid
        else guidWalkSearch fs rest guid
      | none => guidWalkSearch fs rest guid
    else guidWalkSearch fs rest guid

abbrev Cache := List (PyStr × Option PyStr)

def cacheKey (projectRoot guid : PyStr) : PyStr := projectRoot ++ pstr ":" ++ guid

/-- `find_meta_file_by_guid`, with the instance cache passed explicitly.
The third component counts directory-tree walks performed by the call. -/
def find_meta_file_by_guid (fs : MetaFS) (cache : Cache) (projectRoot guid : PyStr) :
    Option PyStr × Cache × Nat :=
  match dictGet cache (cacheKey projectRoot guid) with
  | some v => (v, cache, 0)
  | none =>
    let r := guidWalkSearch fs fs.files guid
    (r, dictSet cache (cacheKey projectRoot guid) r, 1)

/-- C1: two successive resolutions of the same `(projectRoot, guid)` give
identical results; the first call leaves the outcome (positive or negative)
in the cache under that key, and the second call performs no tree walk. -/
theorem guid_resolution_memoized (fs : MetaFS) (cache : Cache) (projectRoot guid : PyStr) :
    (find_meta_file_by_guid fs
        (find_meta_file_by_guid fs cache projectRoot guid).2.1 projectRoot guid).1
      = (find_meta_file_by_guid fs cache projectRoot guid).1
    ∧ (find_meta_file_by_guid fs
        (find_meta_file_by_guid fs cache projectRoot guid).2.1 projectRoot guid).2.2 = 0
    ∧ dictGet (find_meta_file_by_guid fs cache projectRoot guid).2.1
        (cacheKey projectRoot guid)
      = some (find_meta_file_by_guid fs cache projectRoot guid).1 := by
  cases h : dictGet cache (cacheKey projectRoot guid) with
  | none =>
    simp only [find_meta_file_by_guid, h, dictGet_dictSet]
    exact ⟨trivial, trivial, trivial⟩
  | some v =>
    simp only [find_meta_file_by_guid, h]
    exact ⟨trivial, trivial, trivial⟩

/-! ## Resource Locator (`find_godot_resource`)

The Godot project tree is a list of entries `(subdirectory components
relative to the project root, filename)` in `os.walk` order.  The host
path separator is an explicit parameter `sep` so that the host-dependence
of the emitted resource identifier can be stated. -/

structure GodotFS where
  entries : List (List PyStr × PyStr)

/-- `os.path.basename` for a host with separator `sep`. -/
def pyBasename (sep : Char) (p : PyStr) : PyStr :=
  (p.reverse.takeWhile (fun c => c != sep)).reverse

/-- Helper for `os.path.splitext`: split a filename at its last dot. -/
def splitExtAux : PyStr → Option (PyStr × PyStr)
  | [] => none
  | c :: t =>
    match splitExtAux t with
    | some (r, e) => some (c :: r, e)
    | none => if c = '.' then some ([], '.' :: t) else none

/-- `os.path.splitext` on a plain filename: split at the last dot, unless
every character before that dot is itself a dot (leading-dot rule). -/
def splitExtBase (b : PyStr) : PyStr × PyStr :=
  match splitExtAux b with
  | none => (b, [])
  | some (r, e) => if r.any (fun c => c != '.') then (r, e) else (b, [])

/-- `os.path.join` / `os.path.relpath` rendering of path components with
the host separator. -/
def joinSep (sep : Char) : List PyStr → PyStr
  | [] => []
  | [x] => x
  | x :: y :: rest => x ++ sep :: joinSep sep (y :: rest)

/-- Python `rel_path.replace('\\', '/')`. -/
def backslashToSlash (s : PyStr) : PyStr :=
  s.map (fun c => if c = '\\' then '/' else c)

/-- The candidate extension list of `find_godot_resource`. -/
def candExts (sep : Char) (unityPath : PyStr) : List PyStr :=
  if (pstr ".psd").isSuffixOf (lowerStr unityPath) then [pstr ".png"]
  else [(splitExtBase (pyBasename sep unityPath)).2, pstr ".png"]

/-- Inner `os.walk` loop of `find_godot_resource` for one candidate
extension: case-insensitive comparison of each filename against
`base_name + ext`, first match wins. -/
def locateWalk (sep : Char) (entries : List (List PyStr × PyStr)) (baseName ext : PyStr) :
    Option PyStr :=
  match entries with
  | [] => none
  | (dirs, name) :: rest =>
    if lowerStr name = lowerStr baseName ++ lowerStr ext then
      some (pstr "res://" ++ backslashToSlash (joinSep sep (dirs ++ [name])))
    else locateWalk sep rest baseName ext

/-- Outer loop of `find_godot_resource` over the candidate extensions. -/
def locateSearch (sep : Char) (entries : List (List PyStr × PyStr)) (baseName : PyStr) :
    List PyStr → Option PyStr
  | [] => none
  | ext :: rest =>
    match locateWalk sep entries baseName ext with
    | some r => some r
    | none => locateSearch sep entries baseName rest

/-- `find_godot_resource`, with the instance cache passed explicitly. -/
def find_godot_resource (sep : Char) (fs : GodotFS) (cache : Cache)
    (godotRoot unityPath : PyStr) : Option PyStr × Cache :=
  if unityPath = [] then (none, cache)
  else
    match dictGet cache (godotRoot ++ pstr ":" ++ unityPath) with
    | some v => (v, cache)
    | none =>
      let baseName := (splitExtBase (pyBasename sep unityPath)).1
      let r := locateSearch sep fs.entries baseName (candExts sep unityPath)
      (r, dictSet cache (godotRoot ++ pstr ":" ++ unityPath) r)

theorem backslashToSlash_eq_self (s : PyStr) (h : ∀ c ∈ s, c ≠ '\\') :
    backslashToSlash s = s := by
  induction s with
  | nil => rfl
  | cons c t ih =>
    simp only [backslashToSlash, List.map_cons] at *
    have hc : c ≠ '\\' := h c (List.mem_cons_self c t)
    simp only [if_neg hc, List.cons.injEq, true_and]
    exact ih (fun d hd => h d (List.mem_cons_of_mem c hd))

theorem backslashToSlash_joinSep (sep : Char) (hsep : sep = '/' ∨ sep = '\\')
    (parts : List PyStr) (h : ∀ p ∈ parts, ∀ c ∈ p, c ≠ '\\') :
    backslashToSlash (joinSep sep parts) = joinSep '/' parts := by
  induction parts with
  | nil => rfl
  | cons x rest ih =>
    cases rest with
    | nil =>
      simp only [joinSep]
      exact backslashToSlash_eq_self x (h x (List.mem_cons_self x []))
    | cons y rest2 =>
      have h1 : backslashToSlash x = x := backslashToSlash_eq_self x (h x (by simp))
      have h2 : backslashToSlash (joinSep sep (y :: rest2)) = joinSep '/' (y :: rest2) :=
        ih (fun p hp c hc => h p (List.mem_cons_of_mem x hp) c hc)
      have h3 : (if sep = '\\' then '/' else sep) = '/' := by
        rcases hsep with h4 | h4 <;> simp [h4]
      simp only [joinSep, backslashToSlash, List.map_append, List.map_cons] at *
      rw [h1, h2, h3]

theorem locateWalk_sound (sep : Char) (entries : List (List PyStr × PyStr))
    (baseName ext : PyStr) (s : PyStr) (h : locateWalk sep entries baseName ext = some s) :
    ∃ dirs name, (dirs, name) ∈ entries ∧ lowerStr name = lowerStr baseName ++ lowerStr ext ∧
      s = pstr "res://" ++ backslashToSlash (joinSep sep (dirs ++ [name])) := by
  induction entries with
  | nil => simp [locateWalk] at h
  | cons e rest ih =>
    obtain ⟨dirs, name⟩ := e
    by_cases hm : lowerStr name = lowerStr baseName ++ lowerStr ext
    · refine ⟨dirs, name, List.mem_cons_self _ _, hm, ?_⟩
      simp only [locateWalk, if_pos hm, Option.some.injEq] at h
      exact h.symm
    · simp only [locateWalk, if_neg hm] at h
      obtain ⟨d2, n2, hmem, hm2, hs⟩ := ih h
      exact ⟨d2, n2, List.mem_cons_of_mem _ hmem, hm2, hs⟩

theorem locateWalk_complete (sep : Char) (entries : List (List PyStr × PyStr))
    (baseName ext : PyStr)
    (h : ∃ e ∈ entries, lowerStr e.2 = lowerStr baseName ++ lowerStr ext) :
    (locateWalk sep entries baseName ext).isSome = true := by
  induction entries with
  | nil => simp at h
  | cons e rest ih =>
    obtain ⟨dirs, name⟩ := e
    by_cases hm : lowerStr name = lowerStr baseName ++ lowerStr ext
    · simp [locateWalk, if_pos hm]
    · simp only [locateWalk, if_neg hm]
      apply ih
      obtain ⟨e2, he2, hm2⟩ := h
      rcases List.mem_cons.mp he2 with h3 | h3
      · rw [h3] at hm2
        exact absurd hm2 hm
      · exact ⟨e2, h3, hm2⟩

theorem locateSearch_sound (sep : Char) (entries : List (List PyStr × PyStr))
    (baseName : PyStr) (exts : List PyStr) (s : PyStr)
    (h : locateSearch sep entries baseName exts = some s) :
    ∃ ext ∈ exts, ∃ dirs name, (dirs, name) ∈ entries ∧
      lowerStr name = lowerStr baseName ++ lowerStr ext ∧
      s = pstr "res://" ++ backslashToSlash (joinSep sep (dirs ++ [name])) := by
  induction exts with
  | nil => simp [locateSearch] at h
  | cons ext rest ih =>
    cases hw : locateWalk sep entries baseName ext with
    | some r =>
      simp only [locateSearch, hw, Option.some.injEq] at h
      obtain ⟨dirs, name, hmem, hm, hs⟩ := locateWalk_sound sep entries baseName ext s (h ▸ hw)
      exact ⟨ext, List.mem_cons_self _ _, dirs, name, hmem, hm, hs⟩
    | none =>
      simp only [locateSearch, hw] at h
      obtain ⟨e2, he2, rest2⟩ := ih h
      exact ⟨e2, List.mem_cons_of_mem _ he2, rest2⟩

theorem locateSearch_complete (sep : Char) (entries : List (List PyStr × PyStr))
    (baseName : PyStr) (exts : List PyStr)
    (h : ∃ ext ∈ exts, ∃ e ∈ entries, lowerStr e.2 = lowerStr baseName ++ lowerStr ext) :
    (locateSearch sep entries baseName exts).isSome = true := by
  induction exts with
  | nil => simp at h
  | cons ext rest ih =>
    cases hw : locateWalk sep entries baseName ext with
    | some r => simp [locateSearch, hw]
    | none =>
      simp only [locateSearch, hw]
      apply ih
      obtain ⟨e2, he2, hrest⟩ := h
      rcases List.mem_cons.mp he2 with h3 | h3
      · exfalso
        have := locateWalk_complete sep entries baseName ext (h3 ▸ hrest)
        rw [hw] at this
        simp at this
      · exact ⟨e2, h3, hrest⟩

/-- C2: with a fresh cache, the resource locator matches filenames
case-insensitively against `baseName + ext`; a `.psd` source tries only
`.png`, any other source tries its own extension then `.png`; and a
successful result is the matched file's root-relative path behind
`res://` with forward-slash separators on either host convention. -/
theorem resource_locator_spec (sep : Char) (fs : GodotFS) (godotRoot unityPath : PyStr)
    (hsep : sep = '/' ∨ sep = '\\') (hpath : unityPath ≠ [])
    (hclean : ∀ e ∈ fs.entries, ∀ p ∈ e.1 ++ [e.2], ∀ c ∈ p, c ≠ '\\') :
    ((pstr ".psd").isSuffixOf (lowerStr unityPath) = true →
        candExts sep unityPath = [pstr ".png"])
    ∧ ((pstr ".psd").isSuffixOf (lowerStr unityPath) = false →
        candExts sep unityPath = [(splitExtBase (pyBasename sep unityPath)).2, pstr ".png"])
    ∧ (∀ s, (find_godot_resource sep fs [] godotRoot unityPath).1 = some s →
        ∃ dirs name, (dirs, name) ∈ fs.entries ∧
          (∃ ext ∈ candExts sep unityPath,
            lowerStr name = lowerStr (splitExtBase (pyBasename sep unityPath)).1 ++ lowerStr ext)
          ∧ s = pstr "res://" ++ joinSep '/' (dirs ++ [name]))
    ∧ ((∃ e ∈ fs.entries, ∃ ext ∈ candExts sep unityPath,
          lowerStr e.2 = lowerStr (splitExtBase (pyBasename sep unityPath)).1 ++ lowerStr ext) →
        (find_godot_resource sep fs [] godotRoot unityPath).1.isSome = true) := by
  have hunfold : (find_godot_resource sep fs [] godotRoot unityPath).1
      = locateSearch sep fs.entries (splitExtBase (pyBasename sep unityPath)).1
          (candExts sep unityPath) := by
    simp [find_godot_resource, hpath, dictGet]
  refine ⟨?_, ?_, ?_, ?_⟩
  · intro h; simp [candExts, h]
  · intro h; simp [candExts, h]
  · intro s hs
    rw [hunfold] at hs
    obtain ⟨ext, hext, dirs, name, hmem, hm, hform⟩ :=
      locateSearch_sound sep fs.entries _ _ s hs
    refine ⟨dirs, name, hmem, ⟨ext, hext, hm⟩, ?_⟩
    rw [hform, backslashToSlash_joinSep sep hsep (dirs ++ [name])
      (fun p hp c hc => hclean (dirs, name) hmem p hp c hc)]
  · intro h
    rw [hunfold]
    apply locateSearch_complete
    obtain ⟨e, he, ext, hext, hm⟩ := h
    exact ⟨ext, hext, e, he, hm⟩

def wGodotFS : GodotFS := ⟨[([pstr "Textures"], pstr "Wood.PNG")]⟩

theorem resource_locator_spec_witness :
    ((find_godot_resource '/' wGodotFS [] (pstr "g") (pstr "Assets/wood.png")).1).isSome
      = true := by
  have h := resource_locator_spec '/' wGodotFS (pstr "g") (pstr "Assets/wood.png")
    (Or.inl rfl) (by decide) (by decide)
  exact h.2.2.2 (by decide)

/-! ## Material Analyzer record and Material Translator
(`generate_godot_material`)

The structured record produced by `analyze_unity_material`; the maps are
insertion-ordered association lists with unique keys, as Python dicts.
The translator's emitted `.tres` text is modelled line by line as a list
of `Stmt` values, each rendering to the exact source line; its resolver
and locator collaborators are passed as functions (they are the cached
`find_meta_file_by_guid` / `find_godot_resource` of the same instance,
which behave as functions of their argument by the memoization theorem). -/

structure TexRef where
  fileID : PyStr
  guid : PyStr
deriving DecidableEq

structure RGBA where
  r : ℚ
  g : ℚ
  b : ℚ
  a : ℚ
deriving DecidableEq

structure MaterialRecord where
  name : PyStr
  textures : List (PyStr × TexRef)
  floats : List (PyStr × ℚ)
  colors : List (PyStr × RGBA)
  shader_keywords : PyStr

/-- The fixed `property_mappings` table, in source order. -/
def property_mappings : List (PyStr × PyStr) :=
  [ (pstr "_MainTex", pstr "albedo_texture"),
    (pstr "_Color", pstr "albedo_color"),
    (pstr "_Metallic", pstr "metallic"),
    (pstr "_Glossiness", pstr "roughness"),
    (pstr "_BumpMap", pstr "normal_texture"),
    (pstr "_EmissionColor", pstr "emission"),
    (pstr "_EmissionMap", pstr "emission_texture"),
    (pstr "_OcclusionMap", pstr "ao_texture") ]

/-- One line of the generated `.tres` content. -/
inductive Stmt where
  | gdResourceHeader
  | resourceHeader
  | transparency1
  | alphaScissorThreshold (v : ℚ)
  | alphaHashScale
  | blendMode1
  | extResource (prop path : PyStr)
  | colorVal (prop : PyStr) (c : RGBA)
  | floatVal (prop : PyStr) (v : ℚ)
deriving DecidableEq

/-- One `print` line emitted inside the property loop. -/
inductive LogLine where
  | foundTexture (unityPath godotPath : PyStr)
  | warnNoGodotResource (unityPath : PyStr)
deriving DecidableEq

/-- Rendering of a statement to its source text line; `fq` renders a
numeric value the way Python string-formats the float. -/
def Stmt.render (fq : ℚ → PyStr) : Stmt → PyStr
  | .gdResourceHeader => pstr "[gd_resource type=\"StandardMaterial3D\" format=3]"
  | .resourceHeader => pstr "[resource]"
  | .transparency1 => pstr "transparency = 1"
  | .alphaScissorThreshold v => pstr "alpha_scissor_threshold = " ++ fq v
  | .alphaHashScale => pstr "alpha_hash_scale = 1.0"
  | .blendMode1 => pstr "blend_mode = 1"
  | .extResource p path => p ++ pstr " = ExtResource(\"" ++ path ++ pstr "\")"
  | .colorVal p c =>
      p ++ pstr " = Color(" ++ fq c.r ++ pstr ", " ++ fq c.g ++ pstr ", "
        ++ fq c.b ++ pstr ", " ++ fq c.a ++ pstr ")"
  | .floatVal p v => p ++ pstr " = " ++ fq v

/-- The property name on the left of the `=` of a statement, if any. -/
def Stmt.assignedProp : Stmt → Option PyStr
  | .gdResourceHeader => none
  | .resourceHeader => none
  | .transparency1 => some (pstr "transparency")
  | .alphaScissorThreshold _ => some (pstr "alpha_scissor_threshold")
  | .alphaHashScale => some (pstr "alpha_hash_scale")
  | .blendMode1 => some (pstr "blend_mode")
  | .extResource p _ => some p
  | .colorVal p _ => some p
  | .floatVal p _ => some p

/-- Whether a statement is one of the four transparency-related lines. -/
def Stmt.isTransparencyStmt : Stmt → Bool
  | .transparency1 => true
  | .alphaScissorThreshold _ => true
  | .alphaHashScale => true
  | .blendMode1 => true
  | _ => false

/-- The transparency-inference block preceding the property loop. -/
def transparencyStmts (m : MaterialRecord) : List Stmt :=
  if strContains m.shader_keywords (pstr "_ALPHATEST_ON") then
    [Stmt.transparency1,
     Stmt.alphaScissorThreshold ((dictGet m.floats (pstr "_Cutoff")).getD (1/2 : ℚ)),
     Stmt.alphaHashScale]
  else if strContains m.shader_keywords (pstr "_ALPHABLEND_ON")
      || strContains m.shader_keywords (pstr "_ALPHAPREMULTIPLY_ON") then
    [Stmt.transparency1, Stmt.blendMode1]
  else []

/-- The `for unity_prop, godot_prop in self.property_mappings.items()`
loop: statements appended to the content and `print` lines, in order. -/
def emitProps (resolve locate : PyStr → Option PyStr) (m : MaterialRecord) :
    List (PyStr × PyStr) → List Stmt × List LogLine
  | [] => ([], [])
  | (uprop, gprop) :: rest =>
    match dictGet m.textures uprop with
    | some tex =>
      match resolve tex.guid with
      | some upath =>
        match locate upath with
        | some gpath =>
          (Stmt.extResource gprop gpath :: (emitProps resolve locate m rest).1,
           LogLine.foundTexture (pyBasename '/' upath) gpath
             :: (emitProps resolve locate m rest).2)
        | none =>
          ((emitProps resolve locate m rest).1,
           LogLine.warnNoGodotResource (pyBasename '/' upath)
             :: (emitProps resolve locate m rest).2)
      | none => emitProps resolve locate m rest
    | none =>
      match dictGet m.colors uprop with
      | some c => (Stmt.colorVal gprop c :: (emitProps resolve locate m rest).1,
                   (emitProps resolve locate m rest).2)
      | none =>
        match dictGet m.floats uprop with
        | some v =>
          (Stmt.floatVal gprop (if uprop = pstr "_Glossiness" then 1 - v else v)
             :: (emitProps resolve locate m rest).1,
           (emitProps resolve locate m rest).2)
        | none => emitProps resolve locate m rest

/-- `generate_godot_material`: the generated statement list and the log
lines of its property loop. -/
def generate_godot_material (resolve locate : PyStr → Option PyStr) (m : MaterialRecord) :
    List Stmt × List LogLine :=
  (Stmt.gdResourceHeader :: Stmt.resourceHeader ::
     (transparencyStmts m ++ (emitProps resolve locate m property_mappings).1),
   (emitProps resolve locate m property_mappings).2)

theorem emitProps_no_transparency (resolve locate : PyStr → Option PyStr) (m : MaterialRecord)
    (table : List (PyStr × PyStr)) :
    ∀ s ∈ (emitProps resolve locate m table).1, s.isTransparencyStmt = false := by
  induction table with
  | nil => intro s hs; simp [emitProps] at hs
  | cons e rest ih =>
    obtain ⟨uprop, gprop⟩ := e
    intro s hs
    cases h1 : dictGet m.textures uprop with
    | some tex =>
      cases h2 : resolve tex.guid with
      | some upath =>
        cases h3 : locate upath with
        | some gpath =>
          simp only [emitProps, h1, h2, h3] at hs
          rcases List.mem_cons.mp hs with h | h
          · subst h; rfl
          · exact ih s h
        | none =>
          simp only [emitProps, h1, h2, h3] at hs
          exact ih s hs
      | none =>
        simp only [emitProps, h1, h2] at hs
        exact ih s hs
    | none =>
      cases h4 : dictGet m.colors uprop with
      | some c =>
        simp only [emitProps, h1, h4] at hs
        rcases List.mem_cons.mp hs with h | h
        · subst h; rfl
        · exact ih s h
      | none =>
        cases h5 : dictGet m.floats uprop with
        | some v =>
          simp only [emitProps, h1, h4, h5] at hs
          rcases List.mem_cons.mp hs with h | h
          · subst h; rfl
          · exact ih s h
        | none =>
          simp only [emitProps, h1, h4, h5] at hs
          exact ih s hs

theorem emitProps_cons_subset (resolve locate : PyStr → Option PyStr) (m : MaterialRecord)
    (e : PyStr × PyStr) (rest : List (PyStr × PyStr)) :
    ∀ s ∈ (emitProps resolve locate m rest).1, s ∈ (emitProps resolve locate m (e :: rest)).1 := by
  obtain ⟨uprop, gprop⟩ := e
  intro s hs
  cases h1 : dictGet m.textures uprop with
  | some tex =>
    cases h2 : resolve tex.guid with
    | some upath =>
      cases h3 : locate upath with
      | some gpath =>
        simp only [emitProps, h1, h2, h3]
        exact List.mem_cons_of_mem _ hs
      | none =>
        simp only [emitProps, h1, h2, h3]
        exact hs
    | none =>
      simp only [emitProps, h1, h2]
      exact hs
  | none =>
    cases h4 : dictGet m.colors uprop with
    | some c =>
      simp only [emitProps, h1, h4]
      exact List.mem_cons_of_mem _ hs
    | none =>
      cases h5 : dictGet m.floats uprop with
      | some v =>
        simp only [emitProps, h1, h4, h5]
        exact List.mem_cons_of_mem _ hs
      | none =>
        simp only [emitProps, h1, h4, h5]
        exact hs

theorem emitProps_float_mem (resolve locate : PyStr → Option PyStr) (m : MaterialRecord)
    (table : List (PyStr × PyStr)) (uprop gprop : PyStr) (v : ℚ)
    (hmem : (uprop, gprop) ∈ table)
    (ht : dictGet m.textures uprop = none)
    (hc : dictGet m.colors uprop = none)
    (hf : dictGet m.floats uprop = some v) :
    Stmt.floatVal gprop (if uprop = pstr "_Glossiness" then 1 - v else v)
      ∈ (emitProps resolve locate m table).1 := by
  induction table with
  | nil => simp at hmem
  | cons e rest ih =>
    rcases List.mem_cons.mp hmem with h | h
    · rw [← h]
      simp only [emitProps, ht, hc, hf]
      exact List.mem_cons_self _ _
    · exact emitProps_cons_subset resolve locate m e rest _ (ih h)

theorem emitProps_assigned (resolve locate : PyStr → Option PyStr) (m : MaterialRecord)
    (table : List (PyStr × PyStr)) :
    ∀ s ∈ (emitProps resolve locate m table).1, ∃ u g, (u, g) ∈ table
      ∧ s.assignedProp = some g
      ∧ ((∃ tex upath gpath, dictGet m.textures u = some tex ∧ resolve tex.guid = some upath
            ∧ locate upath = some gpath)
         ∨ (dictGet m.textures u = none ∧ ∃ c, dictGet m.colors u = some c)
         ∨ (dictGet m.textures u = none ∧ dictGet m.colors u = none
            ∧ ∃ v, dictGet m.floats u = some v)) := by
  induction table with
  | nil => intro s hs; simp [emitProps] at hs
  | cons e rest ih =>
    obtain ⟨uprop, gprop⟩ := e
    intro s hs
    cases h1 : dictGet m.textures uprop with
    | some tex =>
      cases h2 : resolve tex.guid with
      | some upath =>
        cases h3 : locate upath with
        | some gpath =>
          simp only [emitProps, h1, h2, h3] at hs
          rcases List.mem_cons.mp hs with h | h
          · subst h
            exact ⟨uprop, gprop, List.mem_cons_self _ _, rfl,
              Or.inl ⟨tex, upath, gpath, h1, h2, h3⟩⟩
          · obtain ⟨u, g, hm, rest2⟩ := ih s h
            exact ⟨u, g, List.mem_cons_of_mem _ hm, rest2⟩
        | none =>
          simp only [emitProps, h1, h2, h3] at hs
          obtain ⟨u, g, hm, rest2⟩ := ih s hs
          exact ⟨u, g, List.mem_cons_of_mem _ hm, rest2⟩
      | none =>
        simp only [emitProps, h1, h2] at hs
        obtain ⟨u, g, hm, rest2⟩ := ih s hs
        exact ⟨u, g, List.mem_cons_of_mem _ hm, rest2⟩
    | none =>
      cases h4 : dictGet m.colors uprop with
      | some c =>
        simp only [emitProps, h1, h4] at hs
        rcases List.mem_cons.mp hs with h | h
        · subst h
          exact ⟨uprop, gprop, List.mem_cons_self _ _, rfl, Or.inr (Or.inl ⟨h1, c, h4⟩)⟩
        · obtain ⟨u, g, hm, rest2⟩ := ih s h
          exact ⟨u, g, List.mem_cons_of_mem _ hm, rest2⟩
      | none =>
        cases h5 : dictGet m.floats uprop with
        | some v =>
          simp only [emitProps, h1, h4, h5] at hs
          rcases List.mem_cons.mp hs with h | h
          · subst h
            exact ⟨uprop, gprop, List.mem_cons_self _ _, rfl, Or.inr (Or.inr ⟨h1, h4, v, h5⟩)⟩
          · obtain ⟨u, g, hm, rest2⟩ := ih s h
            exact ⟨u, g, List.mem_cons_of_mem _ hm, rest2⟩
        | none =>
          simp only [emitProps, h1, h4, h5] at hs
          obtain ⟨u, g, hm, rest2⟩ := ih s hs
          exact ⟨u, g, List.mem_cons_of_mem _ hm, rest2⟩

theorem property_mappings_snd_inj :
    ∀ p1 ∈ property_mappings, ∀ p2 ∈ property_mappings, p1.2 = p2.2 → p1.1 = p2.1 := by
  decide

theorem property_mappings_not_transparency :
    ∀ p ∈ property_mappings, p.2 ≠ pstr "transparency"
      ∧ p.2 ≠ pstr "alpha_scissor_threshold"
      ∧ p.2 ≠ pstr "alpha_hash_scale" ∧ p.2 ≠ pstr "blend_mode" := by
  decide

theorem transparencyStmts_mem (m : MaterialRecord) :
    ∀ s ∈ transparencyStmts m,
      s.assignedProp = some (pstr "transparency")
      ∨ s.assignedProp = some (pstr "alpha_scissor_threshold")
      ∨ s.assignedProp = some (pstr "alpha_hash_scale")
      ∨ s.assignedProp = some (pstr "blend_mode") := by
  intro s hs
  unfold transparencyStmts at hs
  split at hs
  · simp only [List.mem_cons, List.not_mem_nil, or_false] at hs
    rcases hs with h | h | h <;> subst h <;> simp [Stmt.assignedProp]
  · split at hs
    · simp only [List.mem_cons, List.not_mem_nil, or_false] at hs
      rcases hs with h | h <;> subst h <;> simp [Stmt.assignedProp]
    · simp at hs

theorem generate_omits (resolve locate : PyStr → Option PyStr) (m : MaterialRecord)
    (uprop gprop : PyStr) (hmem : (uprop, gprop) ∈ property_mappings)
    (hne : ¬ ((∃ tex upath gpath, dictGet m.textures uprop = some tex
          ∧ resolve tex.guid = some upath ∧ locate upath = some gpath)
       ∨ (dictGet m.textures uprop = none ∧ ∃ c, dictGet m.colors uprop = some c)
       ∨ (dictGet m.textures uprop = none ∧ dictGet m.colors uprop = none
          ∧ ∃ v, dictGet m.floats uprop = some v))) :
    ∀ s ∈ (generate_godot_material resolve locate m).1, s.assignedProp ≠ some gprop := by
  intro s hs heq
  have hs2 : s ∈ Stmt.gdResourceHeader :: Stmt.resourceHeader ::
      (transparencyStmts m ++ (emitProps resolve locate m property_mappings).1) := hs
  rcases List.mem_cons.mp hs2 with h | hs3
  · subst h; simp [Stmt.assignedProp] at heq
  rcases List.mem_cons.mp hs3 with h | hs4
  · subst h; simp [Stmt.assignedProp] at heq
  rcases List.mem_append.mp hs4 with h | h
  · have h4 := transparencyStmts_mem m s h
    have h5 := property_mappings_not_transparency (uprop, gprop) hmem
    rcases h4 with h4 | h4 | h4 | h4 <;> rw [heq] at h4
    · exact h5.1 (Option.some.inj h4)
    · exact h5.2.1 (Option.some.inj h4)
    · exact h5.2.2.1 (Option.some.inj h4)
    · exact h5.2.2.2 (Option.some.inj h4)
  · obtain ⟨u, g, hm2, hass, hdata⟩ := emitProps_assigned resolve locate m property_mappings s h
    rw [heq] at hass
    have hgg : g = gprop := (Option.some.inj hass).symm
    have huu : u = uprop :=
      property_mappings_snd_inj (u, g) hm2 (uprop, gprop) hmem hgg
    rw [huu] at hdata
    exact hne hdata

/-- C3: transparency inference precedes the property loop.  If the
shader-keyword string contains `_ALPHATEST_ON`, the output starts (after
the fixed headers) with `transparency = 1`, an alpha-scissor threshold
equal to the `_Cutoff` float (`0.5` when absent, via `getD`), and the
alpha-hash line; otherwise, if it contains either alpha-blend flag,
with `transparency = 1` and `blend_mode = 1`; otherwise no
transparency-related statement appears anywhere in the output, since the
property loop never emits one. -/
theorem transparency_inference (resolve locate : PyStr → Option PyStr) (m : MaterialRecord) :
    (strContains m.shader_keywords (pstr "_ALPHATEST_ON") = true →
      (generate_godot_material resolve locate m).1
        = Stmt.gdResourceHeader :: Stmt.resourceHeader :: Stmt.transparency1 ::
          Stmt.alphaScissorThreshold ((dictGet m.floats (pstr "_Cutoff")).getD (1/2 : ℚ)) ::
          Stmt.alphaHashScale :: (emitProps resolve locate m property_mappings).1)
    ∧ (strContains m.shader_keywords (pstr "_ALPHATEST_ON") = false →
       (strContains m.shader_keywords (pstr "_ALPHABLEND_ON") = true
         ∨ strContains m.shader_keywords (pstr "_ALPHAPREMULTIPLY_ON") = true) →
      (generate_godot_material resolve locate m).1
        = Stmt.gdResourceHeader :: Stmt.resourceHeader :: Stmt.transparency1 ::
          Stmt.blendMode1 :: (emitProps resolve locate m property_mappings).1)
    ∧ (strContains m.shader_keywords (pstr "_ALPHATEST_ON") = false →
       strContains m.shader_keywords (pstr "_ALPHABLEND_ON") = false →
       strContains m.shader_keywords (pstr "_ALPHAPREMULTIPLY_ON") = false →
      (generate_godot_material resolve locate m).1
        = Stmt.gdResourceHeader :: Stmt.resourceHeader ::
            (emitProps resolve locate m property_mappings).1)
    ∧ (∀ s ∈ (emitProps resolve locate m property_mappings).1,
        s.isTransparencyStmt = false) := by
  refine ⟨?_, ?_, ?_, emitProps_no_transparency resolve locate m property_mappings⟩
  · intro h
    simp [generate_godot_material, transparencyStmts, h]
  · intro h1 h2
    rcases h2 with h2 | h2 <;>
      simp [generate_godot_material, transparencyStmts, h1, h2]
  · intro h1 h2 h3
    simp [generate_godot_material, transparencyStmts, h1, h2, h3]

def mC3 : MaterialRecord := ⟨pstr "M", [], [], [], pstr "_ALPHATEST_ON"⟩

theorem transparency_inference_witness :
    (generate_godot_material (fun _ => none) (fun _ => none) mC3).1
      = [Stmt.gdResourceHeader, Stmt.resourceHeader, Stmt.transparency1,
         Stmt.alphaScissorThreshold (1/2 : ℚ), Stmt.alphaHashScale] := by
  have h := (transparency_inference (fun _ => none) (fun _ => none) mC3).1 (by decide)
  rw [h]
  rfl

/-- C4: a material whose floats map binds `_Glossiness` to `g` (with no
texture or color entry under that key) gets `roughness = 1 - g` emitted. -/
theorem glossiness_inversion (resolve locate : PyStr → Option PyStr) (m : MaterialRecord)
    (g : ℚ)
    (ht : dictGet m.textures (pstr "_Glossiness") = none)
    (hc : dictGet m.colors (pstr "_Glossiness") = none)
    (hf : dictGet m.floats (pstr "_Glossiness") = some g) :
    Stmt.floatVal (pstr "roughness") (1 - g) ∈ (generate_godot_material resolve locate m).1 := by
  have h := emitProps_float_mem resolve locate m property_mappings (pstr "_Glossiness")
    (pstr "roughness") g (by decide) ht hc hf
  rw [if_pos rfl] at h
  exact List.mem_cons_of_mem _ (List.mem_cons_of_mem _ (List.mem_append_right _ h))

def mC4 : MaterialRecord := ⟨pstr "M", [], [(pstr "_Glossiness", (4/5 : ℚ))], [], []⟩

theorem glossiness_inversion_witness :
    Stmt.floatVal (pstr "roughness") (1/5 : ℚ)
      ∈ (generate_godot_material (fun _ => none) (fun _ => none) mC4).1 := by
  have h := glossiness_inversion (fun _ => none) (fun _ => none) mC4 (4/5 : ℚ)
    rfl rfl (by simp [mC4, dictGet])
  have he : (1 - 4/5 : ℚ) = 1/5 := by norm_num
  rwa [he] at h

/-- C5: a mapped property with no texture, color or float entry in the
record produces no assignment for its target property anywhere in the
output (the only other statements are the headers and the documented
transparency lines, whose names differ from every mapped target). -/
theorem unset_property_omitted (resolve locate : PyStr → Option PyStr) (m : MaterialRecord)
    (uprop gprop : PyStr) (hmem : (uprop, gprop) ∈ property_mappings)
    (ht : dictGet m.textures uprop = none)
    (hc : dictGet m.colors uprop = none)
    (hf : dictGet m.floats uprop = none) :
    ∀ s ∈ (generate_godot_material resolve locate m).1, s.assignedProp ≠ some gprop := by
  apply generate_omits resolve locate m uprop gprop hmem
  intro hcon
  rcases hcon with ⟨tex, _, _, htex, _⟩ | ⟨_, c, hcol⟩ | ⟨_, _, v, hflo⟩
  · rw [ht] at htex; exact Option.noConfusion htex
  · rw [hc] at hcol; exact Option.noConfusion hcol
  · rw [hf] at hflo; exact Option.noConfusion hflo

def mC5 : MaterialRecord := ⟨pstr "M", [], [], [], []⟩

theorem unset_property_omitted_witness :
    Stmt.resourceHeader.assignedProp ≠ some (pstr "albedo_texture") :=
  unset_property_omitted (fun _ => none) (fun _ => none) mC5 (pstr "_MainTex")
    (pstr "albedo_texture") (by decide) rfl rfl rfl Stmt.resourceHeader (by decide)

/-- C6 counterexample: a material whose sole texture's GUID the resolver
does not resolve.  The property is omitted (output is just the two
headers) but the log-line list is empty: no warning is printed, contrary
to the claim, because the source prints a warning only in the inner
`else` branch reached when the meta file is found. -/
def mC6 : MaterialRecord :=
  ⟨pstr "Mat", [(pstr "_MainTex", ⟨pstr "2", pstr "abcdef"⟩)], [], [], []⟩

theorem texture_guid_miss_counterexample :
    dictGet mC6.textures (pstr "_MainTex") = some ⟨pstr "2", pstr "abcdef"⟩
    ∧ (generate_godot_material (fun _ => none) (fun _ => none) mC6).1
        = [Stmt.gdResourceHeader, Stmt.resourceHeader]
    ∧ (generate_godot_material (fun _ => none) (fun _ => none) mC6).2 = [] := by
  exact ⟨by decide, rfl, rfl⟩

theorem emitProps_filter_failing (resolve locate : PyStr → Option PyStr) (m : MaterialRecord)
    (uprop : PyStr) (tex : TexRef)
    (ht : dictGet m.textures uprop = some tex) (hr : resolve tex.guid = none) :
    ∀ table, emitProps resolve locate m table
      = emitProps resolve locate m (table.filter (fun e => e.1 != uprop)) := by
  intro table
  induction table with
  | nil => rfl
  | cons e rest ih =>
    obtain ⟨u, g⟩ := e
    by_cases hu : u = uprop
    · subst hu
      have hfil : ((u, g) :: rest).filter (fun e => e.1 != u)
          = rest.filter (fun e => e.1 != u) := by
        simp [List.filter_cons]
      rw [hfil]
      simp only [emitProps, ht, hr]
      exact ih
    · have hfil : ((u, g) :: rest).filter (fun e => e.1 != uprop)
          = (u, g) :: rest.filter (fun e => e.1 != uprop) := by
        simp [List.filter_cons, hu]
      rw [hfil]
      cases h1 : dictGet m.textures u with
      | some tex2 =>
        cases h2 : resolve tex2.guid with
        | some upath =>
          cases h3 : locate upath with
          | some gpath => simp only [emitProps, h1, h2, h3, ih]
          | none => simp only [emitProps, h1, h2, h3, ih]
        | none => simp only [emitProps, h1, h2, ih]
      | none =>
        cases h4 : dictGet m.colors u with
        | some c => simp only [emitProps, h1, h4, ih]
        | none =>
          cases h5 : dictGet m.floats u with
          | some v => simp only [emitProps, h1, h4, h5, ih]
          | none => simp only [emitProps, h1, h4, h5, ih]

/-- C6 (amended): a texture property whose GUID the resolver does not
resolve is omitted from the output with NO log line, and the whole
translation (statements and logs) equals the translation of the property
table with the failing property removed — every remaining property is
translated exactly as it would be without the failing one. -/
theorem texture_guid_miss_amended (resolve locate : PyStr → Option PyStr) (m : MaterialRecord)
    (uprop gprop : PyStr) (tex : TexRef)
    (hmem : (uprop, gprop) ∈ property_mappings)
    (ht : dictGet m.textures uprop = some tex)
    (hr : resolve tex.guid = none) :
    emitProps resolve locate m property_mappings
      = emitProps resolve locate m (property_mappings.filter (fun e => e.1 != uprop))
    ∧ ∀ s ∈ (generate_godot_material resolve locate m).1, s.assignedProp ≠ some gprop := by
  constructor
  · exact emitProps_filter_failing resolve locate m uprop tex ht hr property_mappings
  · apply generate_omits resolve locate m uprop gprop hmem
    intro hcon
    rcases hcon with ⟨tex2, upath, _, htex2, hres, _⟩ | ⟨htn, _⟩ | ⟨htn, _⟩
    · rw [ht] at htex2
      have : tex2 = tex := (Option.some.inj htex2).symm
      rw [this] at hres
      rw [hr] at hres
      exact Option.noConfusion hres
    · rw [ht] at htn; exact Option.noConfusion htn
    · rw [ht] at htn; exact Option.noConfusion htn

theorem texture_guid_miss_amended_witness :
    emitProps (fun _ => none) (fun _ => none) mC6 property_mappings
      = emitProps (fun _ => none) (fun _ => none) mC6
          (property_mappings.filter (fun e => e.1 != pstr "_MainTex")) :=
  (texture_guid_miss_amended (fun _ => none) (fun _ => none) mC6 (pstr "_MainTex")
    (pstr "albedo_texture") ⟨pstr "2", pstr "abcdef"⟩ (by decide) (by decide) rfl).1

/-- C9: whenever the shader-keyword string contains `_ALPHATEST_ON`, the
output contains the statement rendering to the exact line
`alpha_hash_scale = 1.0`, emitted unconditionally in that branch. -/
theorem alpha_hash_scale_emitted (fq : ℚ → PyStr) (resolve locate : PyStr → Option PyStr)
    (m : MaterialRecord)
    (h : strContains m.shader_keywords (pstr "_ALPHATEST_ON") = true) :
    Stmt.alphaHashScale ∈ (generate_godot_material resolve locate m).1
    ∧ Stmt.render fq Stmt.alphaHashScale = pstr "alpha_hash_scale = 1.0" := by
  constructor
  · simp [generate_godot_material, transparencyStmts, h]
  · rfl

def mC9 : MaterialRecord := ⟨pstr "M", [], [], [], pstr "GLOW _ALPHATEST_ON FOO"⟩

theorem alpha_hash_scale_emitted_witness :
    Stmt.alphaHashScale ∈ (generate_godot_material (fun _ => none) (fun _ => none) mC9).1
    ∧ Stmt.render (fun _ => pstr "0") Stmt.alphaHashScale = pstr "alpha_hash_scale = 1.0" :=
  alpha_hash_scale_emitted (fun _ => pstr "0") (fun _ => none) (fun _ => none) mC9 (by decide)

/-! ## Scene Composer (`find_godot_fbx`, `generate_godot_scene`)

The Godot assets tree is a list of `(subdirectory components relative to
the assets directory, filename)` entries in `os.walk` order; `assetsRel`
is the assets directory's position relative to the Godot project root.
Only scene-file writes are modelled (directory creation is not a file
write). -/

structure SceneFS where
  entries : List (List PyStr × PyStr)

/-- Strategy 2 of `find_godot_fbx`: first directory in walk order whose
file list contains the exact filename. -/
def fbxWalk (entries : List (List PyStr × PyStr)) (fbxName : PyStr) : Option (List PyStr) :=
  match entries with
  | [] => none
  | (dirs, name) :: rest => if name = fbxName then some dirs else fbxWalk rest fbxName

/-- `find_godot_fbx`: direct relative-path mapping checked for existence,
else a full-tree search for the same-named file; `res://`-format result. -/
def find_godot_fbx (sep : Char) (fs : SceneFS) (assetsRel : List PyStr)
    (fbxRelDirs : List PyStr) (fbxName : PyStr) : Option PyStr :=
  if fs.entries.any (fun e => e == (fbxRelDirs, fbxName)) then
    some (pstr "res://"
      ++ backslashToSlash (joinSep sep (assetsRel ++ fbxRelDirs ++ [fbxName])))
  else
    match fbxWalk fs.entries fbxName with
    | some dirs =>
      some (pstr "res://" ++ backslashToSlash (joinSep sep (assetsRel ++ dirs ++ [fbxName])))
    | none => none

/-- The structured content of a written `.tscn` file: the instantiated
mesh resource, the root node name, and one override node per entry of the
supplied material mapping. -/
structure TscnContent where
  fbxPath : PyStr
  nodeName : PyStr
  overrides : List (PyStr × PyStr)

/-- The output path computed by `generate_godot_scene`: re-root under a
`Scenes` tree the tail of the source-relative path from the `Meshes`
marker onward (full relative path when the marker is absent). -/
def sceneOutputPath (assetsRel fbxRelDirs : List PyStr) (fbxName : PyStr) : List PyStr :=
  assetsRel ++ pstr "Scenes" ::
    ((match (fbxRelDirs ++ [fbxName]).findIdx? (fun p => p == pstr "Meshes") with
      | some i => (fbxRelDirs ++ [fbxName]).drop i
      | none => fbxRelDirs ++ [fbxName]).dropLast
     ++ [(splitExtBase fbxName).1 ++ pstr ".tscn"])

/-- `generate_godot_scene`: the returned path and the scene-file writes
performed.  When the mesh cannot be located, no scene file is written. -/
def generate_godot_scene (sep : Char) (fs : SceneFS) (assetsRel : List PyStr)
    (material_mappings : List (PyStr × PyStr)) (fbxRelDirs : List PyStr) (fbxName : PyStr) :
    Option (List PyStr) × List (List PyStr × TscnContent) :=
  match find_godot_fbx sep fs assetsRel fbxRelDirs fbxName with
  | none => (none, [])
  | some fbxRes =>
    (some (sceneOutputPath assetsRel fbxRelDirs fbxName),
     [(sceneOutputPath assetsRel fbxRelDirs fbxName,
       ⟨fbxRes, (splitExtBase fbxName).1, material_mappings⟩)])

/-- The per-FBX loop of `convert_directory`: scene-file writes of a batch
of jobs `(material mapping, source-relative dirs, filename)`, in order. -/
def sceneBatch (sep : Char) (fs : SceneFS) (assetsRel : List PyStr) :
    List (List (PyStr × PyStr) × List PyStr × PyStr) → List (List PyStr × TscnContent)
  | [] => []
  | (mm, dirs, name) :: rest =>
    (generate_godot_scene sep fs assetsRel mm dirs name).2 ++ sceneBatch sep fs assetsRel rest

theorem fbxWalk_none (entries : List (List PyStr × PyStr)) (fbxName : PyStr)
    (h : ∀ e ∈ entries, e.2 ≠ fbxName) : fbxWalk entries fbxName = none := by
  induction entries with
  | nil => rfl
  | cons e rest ih =>
    obtain ⟨dirs, name⟩ := e
    have hname : name ≠ fbxName := h (dirs, name) (List.mem_cons_self _ _)
    simp only [fbxWalk, if_neg hname]
    exact ih (fun e2 he2 => h e2 (List.mem_cons_of_mem _ he2))

/-- C8: when no file anywhere under the target assets tree has the mesh's
filename (so neither the direct mapping exists nor the tree search finds
it), scene composition returns `none` and writes no scene file, and the
batch loop produces exactly the writes of the remaining jobs. -/
theorem scene_compose_missing_mesh (sep : Char) (fs : SceneFS) (assetsRel : List PyStr)
    (mm : List (PyStr × PyStr)) (fbxRelDirs : List PyStr) (fbxName : PyStr)
    (h : ∀ e ∈ fs.entries, e.2 ≠ fbxName) :
    generate_godot_scene sep fs assetsRel mm fbxRelDirs fbxName = (none, [])
    ∧ ∀ rest, sceneBatch sep fs assetsRel ((mm, fbxRelDirs, fbxName) :: rest)
        = sceneBatch sep fs assetsRel rest := by
  have h1 : fbxWalk fs.entries fbxName = none := fbxWalk_none fs.entries fbxName h
  have h2 : fs.entries.any (fun e => e == (fbxRelDirs, fbxName)) = false := by
    rw [List.any_eq_false]
    intro e he heq
    rw [beq_iff_eq] at heq
    exact h e he (by rw [heq])
  have h3 : find_godot_fbx sep fs assetsRel fbxRelDirs fbxName = none := by
    simp only [find_godot_fbx, h2, Bool.false_eq_true, if_false, h1]
  have h4 : generate_godot_scene sep fs assetsRel mm fbxRelDirs fbxName = (none, []) := by
    simp only [generate_godot_scene, h3]
  refine ⟨h4, fun rest => ?_⟩
  simp only [sceneBatch, h4, List.nil_append]

def wSceneFS : SceneFS := ⟨[([pstr "Props"], pstr "Barrel.fbx")]⟩

theorem scene_compose_missing_mesh_witness :
    generate_godot_scene '/' wSceneFS [pstr "assets"] []
      [pstr "Meshes", pstr "Props"] (pstr "Crate.fbx") = (none, []) :=
  (scene_compose_missing_mesh '/' wSceneFS [pstr "assets"] []
    [pstr "Meshes", pstr "Props"] (pstr "Crate.fbx") (by decide)).1

/-! ## Mesh material mapping (`convert_directory`, scene loop) -/

/-- The `material_mappings` dict built for one FBX file: for each
converted material whose lowercased name is a substring of the lowercased
mesh stem, assign `d[fbx_file.stem] = mat_path`. -/
def buildMaterialMappings (material_paths : List (PyStr × PyStr)) (stem : PyStr) :
    List (PyStr × PyStr) :=
  material_paths.foldl
    (fun acc p =>
      if strContains (lowerStr stem) (lowerStr p.1) = true then dictSet acc stem p.2 else acc)
    []

/-- The resource path of the last matching material, starting from a
default. -/
def lastMatchD (material_paths : List (PyStr × PyStr)) (stem : PyStr) (d : Option PyStr) :
    Option PyStr :=
  material_paths.foldl
    (fun acc p => if strContains (lowerStr stem) (lowerStr p.1) = true then some p.2 else acc) d

/-- A dict holding at most the single key `stem`. -/
def optEntry (stem : PyStr) : Option PyStr → List (PyStr × PyStr)
  | none => []
  | some v => [(stem, v)]

theorem buildMM_general (stem : PyStr) (mp : List (PyStr × PyStr)) : ∀ d : Option PyStr,
    mp.foldl
      (fun acc p =>
        if strContains (lowerStr stem) (lowerStr p.1) = true then dictSet acc stem p.2 else acc)
      (optEntry stem d)
    = optEntry stem (lastMatchD mp stem d) := by
  induction mp with
  | nil => intro d; rfl
  | cons p rest ih =>
    intro d
    by_cases hm : strContains (lowerStr stem) (lowerStr p.1) = true
    · have hset : dictSet (optEntry stem d) stem p.2 = optEntry stem (some p.2) := by
        cases d <;> simp [optEntry, dictSet]
      simp only [List.foldl_cons, lastMatchD, if_pos hm, hset]
      exact ih (some p.2)
    · simp only [List.foldl_cons, lastMatchD, if_neg hm]
      exact ih d

/-- C10: the per-mesh material mapping is keyed by the mesh stem, holds at
most one entry (the last matching material's path), and the scene written
with it contains exactly that at-most-one override node. -/
theorem material_mapping_keyed_by_stem (material_paths : List (PyStr × PyStr)) (stem : PyStr) :
    buildMaterialMappings material_paths stem
      = optEntry stem (lastMatchD material_paths stem none)
    ∧ (buildMaterialMappings material_paths stem).length ≤ 1
    ∧ (∀ kv ∈ buildMaterialMappings material_paths stem, kv.1 = stem)
    ∧ (∀ (sep : Char) (fs : SceneFS) (assetsRel fbxRelDirs : List PyStr) (fbxName : PyStr),
        ∀ w ∈ (generate_godot_scene sep fs assetsRel
                 (buildMaterialMappings material_paths stem) fbxRelDirs fbxName).2,
          w.2.overrides = buildMaterialMappings material_paths stem
          ∧ w.2.overrides.length ≤ 1) := by
  have hchar : buildMaterialMappings material_paths stem
      = optEntry stem (lastMatchD material_paths stem none) :=
    buildMM_general stem material_paths none
  have hlen : (buildMaterialMappings material_paths stem).length ≤ 1 := by
    rw [hchar]
    cases lastMatchD material_paths stem none <;> simp [optEntry]
  refine ⟨hchar, hlen, ?_, ?_⟩
  · intro kv hkv
    rw [hchar] at hkv
    cases h : lastMatchD material_paths stem none with
    | none => rw [h] at hkv; simp [optEntry] at hkv
    | some v =>
      rw [h] at hkv
      simp only [optEntry, List.mem_singleton] at hkv
      rw [hkv]
  · intro sep fs assetsRel fbxRelDirs fbxName w hw
    cases h : find_godot_fbx sep fs assetsRel fbxRelDirs fbxName with
    | none => simp only [generate_godot_scene, h, List.not_mem_nil] at hw
    | some fbxRes =>
      simp only [generate_godot_scene, h, List.mem_singleton] at hw
      rw [hw]
      exact ⟨rfl, hlen⟩

def wMaterialPaths : List (PyStr × PyStr) :=
  [(pstr "Wood", pstr "res://a.tres"), (pstr "Crate", pstr "res://b.tres")]

theorem material_mapping_keyed_by_stem_witness :
    buildMaterialMappings wMaterialPaths (pstr "WoodCrate01")
      = [(pstr "WoodCrate01", pstr "res://b.tres")] := by
  have h := (material_mapping_keyed_by_stem wMaterialPaths (pstr "WoodCrate01")).1
  rw [h]
  decide

/-! ## Material Analyzer: the floats block
(`analyze_unity_material`, lines 94-101)

The source extracts the scalar block with
`re.search(r'm_Floats:\s*((?:\s*-\s*_\w+:\s*[\d.]+\s*)+)', content)` and
parses its items with `re.finditer(r'-\s*(_\w+):\s*([\d.]+)', block)`,
building the floats dict with `float(value)`.  Both patterns are
backtracking-free (no candidate set of any greedy sub-match is ever
re-split, because each character class excludes the character that has to
follow it), so they are embedded as deterministic greedy matchers:
`re.search` scans start positions left to right, matching the literal
marker and then as many items as possible (at least one). -/

def dropSpaces (s : PyStr) : PyStr := s.dropWhile pySpace

/-- Match one literal character at the head. -/
def expectChar (c : Char) : PyStr → Option PyStr
  | [] => none
  | d :: t => if d = c then some t else none

/-- Greedy nonempty character-class repetition (`\w+`, `[\d.]+`):
the matched run and the remainder. -/
def expectWord1 (p : Char → Bool) (s : PyStr) : Option (PyStr × PyStr) :=
  if s.takeWhile p = [] then none else some (s.takeWhile p, s.dropWhile p)

/-- One repetition item `\s*-\s*_\w+:\s*[\d.]+\s*` of the block pattern,
returning the remainder on success. -/
def matchOneItem (s : PyStr) : Option PyStr :=
  (expectChar '-' (dropSpaces s)).bind fun s2 =>
  (expectChar '_' (dropSpaces s2)).bind fun s3 =>
  (expectWord1 isWordChar s3).bind fun ws =>
  (expectChar ':' ws.2).bind fun s5 =>
  (expectWord1 isNumChar (dropSpaces s5)).bind fun ns =>
  some (dropSpaces ns.2)

theorem lenDropWhile_le (p : Char → Bool) (l : PyStr) : (l.dropWhile p).length ≤ l.length := by
  induction l with
  | nil => exact Nat.le_refl _
  | cons c t ih =>
    rw [List.dropWhile_cons]
    by_cases h : p c = true
    · simp only [h, if_true]
      exact Nat.le_trans ih (by simp)
    · rw [Bool.not_eq_true] at h
      rw [h]
      simp

theorem expectChar_len (c : Char) (s t : PyStr) (h : expectChar c s = some t) :
    t.length < s.length := by
  cases s with
  | nil => exact Option.noConfusion h
  | cons d s2 =>
    simp only [expectChar] at h
    by_cases hd : d = c
    · rw [if_pos hd] at h
      rw [← Option.some.inj h]
      simp
    · rw [if_neg hd] at h
      exact Option.noConfusion h

theorem expectWord1_len (p : Char → Bool) (s : PyStr) (w t : PyStr)
    (h : expectWord1 p s = some (w, t)) : t.length ≤ s.length := by
  unfold expectWord1 at h
  by_cases he : s.takeWhile p = []
  · rw [if_pos he] at h; exact Option.noConfusion h
  · rw [if_neg he] at h
    have := Option.some.inj h
    have ht : t = s.dropWhile p := congrArg Prod.snd this |>.symm
    rw [ht]
    exact lenDropWhile_le p s

theorem matchOneItem_len (s r : PyStr) (h : matchOneItem s = some r) : r.length < s.length := by
  unfold matchOneItem at h
  cases h1 : expectChar '-' (dropSpaces s) with
  | none => rw [h1] at h; exact Option.noConfusion h
  | some s2 =>
    rw [h1, Option.some_bind] at h
    cases h2 : expectChar '_' (dropSpaces s2) with
    | none => rw [h2] at h; exact Option.noConfusion h
    | some s3 =>
      rw [h2, Option.some_bind] at h
      cases h3 : expectWord1 isWordChar s3 with
      | none => rw [h3] at h; exact Option.noConfusion h
      | some ws =>
        rw [h3, Option.some_bind] at h
        cases h4 : expectChar ':' ws.2 with
        | none => rw [h4] at h; exact Option.noConfusion h
        | some s5 =>
          rw [h4, Option.some_bind] at h
          cases h5 : expectWord1 isNumChar (dropSpaces s5) with
          | none => rw [h5] at h; exact Option.noConfusion h
          | some ns =>
            rw [h5, Option.some_bind] at h
            have hr : r = dropSpaces ns.2 := (Option.some.inj h).symm
            have l1 : s2.length < (dropSpaces s).length := expectChar_len _ _ _ h1
            have l0 : (dropSpaces s).length ≤ s.length := lenDropWhile_le _ _
            have l2 : s3.length < (dropSpaces s2).length := expectChar_len _ _ _ h2
            have l2b : (dropSpaces s2).length ≤ s2.length := lenDropWhile_le _ _
            have l3 : ws.2.length ≤ s3.length := expectWord1_len _ _ ws.1 ws.2 (by
              rw [h3])
            have l4 : s5.length < ws.2.length := expectChar_len _ _ _ h4
            have l5 : ns.2.length ≤ (dropSpaces s5).length := expectWord1_len _ _ ns.1 ns.2 (by
              rw [h5])
            have l5b : (dropSpaces s5).length ≤ s5.length := lenDropWhile_le _ _
            have l6 : r.length ≤ ns.2.length := by
              rw [hr]; exact lenDropWhile_le _ _
            omega

/-- The `+` repetition of the block pattern: consume as many items as
possible. -/
def matchItemsStar (s : PyStr) : PyStr :=
  match h : matchOneItem s with
  | none => s
  | some r => matchItemsStar r
termination_by s.length
decreasing_by exact matchOneItem_len s r h

theorem matchItemsStar_none (s : PyStr) (h : matchOneItem s = none) :
    matchItemsStar s = s := by
  unfold matchItemsStar
  rw [h]

theorem matchItemsStar_some (s r : PyStr) (h : matchOneItem s = some r) :
    matchItemsStar s = matchItemsStar r := by
  conv_lhs => rw [matchItemsStar]
  rw [h]

/-- `re.search` of the float-block pattern: scan start positions left to
right; at a position where the literal `m_Floats:` matches, consume
`\s*` then at least one item greedily; the captured group is the text the
items consumed. -/
def findFloatBlock : PyStr → Option PyStr
  | [] => none
  | c :: t =>
    if (pstr "m_Floats:").isPrefixOf (c :: t) then
      if (matchItemsStar (dropSpaces ((c :: t).drop 9))).length
          < (dropSpaces ((c :: t).drop 9)).length then
        some ((dropSpaces ((c :: t).drop 9)).take
          ((dropSpaces ((c :: t).drop 9)).length
            - (matchItemsStar (dropSpaces ((c :: t).drop 9))).length))
      else findFloatBlock t
    else findFloatBlock t

/-- One match of the finditer pattern `-\s*(_\w+):\s*([\d.]+)` at the
current position: the two groups and the remainder after the match. -/
def matchItemPattern (s : PyStr) : Option (PyStr × PyStr × PyStr) :=
  (expectChar '-' s).bind fun s2 =>
  (expectChar '_' (dropSpaces s2)).bind fun s3 =>
  (expectWord1 isWordChar s3).bind fun ws =>
  (expectChar ':' ws.2).bind fun s5 =>
  (expectWord1 isNumChar (dropSpaces s5)).bind fun ns =>
  some ('_' :: ws.1, ns.1, ns.2)

theorem matchItemPattern_len (s : PyStr) (n v r : PyStr)
    (h : matchItemPattern s = some (n, v, r)) : r.length < s.length := by
  unfold matchItemPattern at h
  cases h1 : expectChar '-' s with
  | none => rw [h1] at h; exact Option.noConfusion h
  | some s2 =>
    rw [h1, Option.some_bind] at h
    cases h2 : expectChar '_' (dropSpaces s2) with
    | none => rw [h2] at h; exact Option.noConfusion h
    | some s3 =>
      rw [h2, Option.some_bind] at h
      cases h3 : expectWord1 isWordChar s3 with
      | none => rw [h3] at h; exact Option.noConfusion h
      | some ws =>
        rw [h3, Option.some_bind] at h
        cases h4 : expectChar ':' ws.2 with
        | none => rw [h4] at h; exact Option.noConfusion h
        | some s5 =>
          rw [h4, Option.some_bind] at h
          cases h5 : expectWord1 isNumChar (dropSpaces s5) with
          | none => rw [h5] at h; exact Option.noConfusion h
          | some ns =>
            rw [h5, Option.some_bind] at h
            have hr : r = ns.2 := congrArg (fun q => q.2.2) (Option.some.inj h) |>.symm
            have l1 : s2.length < s.length := expectChar_len _ _ _ h1
            have l2 : s3.length < (dropSpaces s2).length := expectChar_len _ _ _ h2
            have l2b : (dropSpaces s2).length ≤ s2.length := lenDropWhile_le _ _
            have l3 : ws.2.length ≤ s3.length := expectWord1_len _ _ ws.1 ws.2 (by rw [h3])
            have l4 : s5.length < ws.2.length := expectChar_len _ _ _ h4
            have l5 : ns.2.length ≤ (dropSpaces s5).length := expectWord1_len _ _ ns.1 ns.2 (by rw [h5])
            have l5b : (dropSpaces s5).length ≤ s5.length := lenDropWhile_le _ _
            have l6 : r.length = ns.2.length := by rw [hr]
            omega

/-- `re.finditer` of the item pattern over the captured block:
non-overlapping matches, scanning left to right. -/
def findIter (s : PyStr) : List (PyStr × PyStr) :=
  match s with
  | [] => []
  | c :: t =>
    match h : matchItemPattern (c :: t) with
    | some (n, v, rest) => (n, v) :: findIter rest
    | none => findIter t
termination_by s.length
decreasing_by
  · exact matchItemPattern_len _ n v rest h
  · simp

/-- The numeric value of a digit run. -/
def digitsToNat (s : PyStr) : Nat :=
  s.foldl (fun acc c => 10 * acc + (c.toNat - '0'.toNat)) 0

/-- Python `float(value)` for a string drawn from `[\d.]+`: at most one
dot with at least one digit overall; anything else raises `ValueError`
(`none`). -/
def pyFloat (s : PyStr) : Option ℚ :=
  match s.dropWhile Char.isDigit with
  | [] =>
    if s.takeWhile Char.isDigit = [] then none
    else some ((digitsToNat (s.takeWhile Char.isDigit) : ℚ))
  | c :: fp =>
    if c = '.' then
      if fp.all Char.isDigit = true ∧ (s.takeWhile Char.isDigit ≠ [] ∨ fp ≠ []) then
        some ((digitsToNat (s.takeWhile Char.isDigit) : ℚ)
          + (digitsToNat fp : ℚ) / (10 : ℚ) ^ fp.length)
      else none
    else none

/-- The floats-map extraction of `analyze_unity_material`: no block match
yields the empty dict; otherwise each finditer item is parsed with
`float` (a `ValueError` aborts the analysis: `none`) and stored by dict
assignment. -/
def analyzeFloats (content : PyStr) : Option (List (PyStr × ℚ)) :=
  match findFloatBlock content with
  | none => some []
  | some block =>
    (findIter block).foldl
      (fun acc p =>
        match acc with
        | none => none
        | some d =>
          match pyFloat p.2 with
          | none => none
          | some v => some (dictSet d p.1 v))
      (some [])

/-- An abstract scalar-property line `- _<name>: <ip>.<fp>`. -/
structure FloatItem where
  name : PyStr
  ip : PyStr
  fp : PyStr
deriving DecidableEq

def renderFloatItem (it : FloatItem) : PyStr :=
  '-' :: ' ' :: '_' :: (it.name ++ ':' :: ' ' :: (it.ip ++ '.' :: (it.fp ++ ['\n'])))

def renderFloatBlock : List FloatItem → PyStr
  | [] => []
  | it :: rest => renderFloatItem it ++ renderFloatBlock rest

/-- Well-formedness of a rendered item: nonempty word-character name,
nonempty digit integer part, digit fraction part. -/
def itemWF (it : FloatItem) : Prop :=
  it.name ≠ [] ∧ it.name.all isWordChar = true ∧ it.ip ≠ []
  ∧ it.ip.all Char.isDigit = true ∧ it.fp.all Char.isDigit = true

instance itemWF_decidable (it : FloatItem) : Decidable (itemWF it) := by
  unfold itemWF
  infer_instance

/-- The numeric value denoted by an item. -/
def itemVal (it : FloatItem) : ℚ :=
  (digitsToNat it.ip : ℚ) + (digitsToNat it.fp : ℚ) / (10 : ℚ) ^ it.fp.length

theorem dropSpaces_nonspace (c : Char) (t : PyStr) (h : pySpace c = false) :
    dropSpaces (c :: t) = c :: t := by
  simp [dropSpaces, List.dropWhile_cons, h]

theorem dropSpaces_space (c : Char) (t : PyStr) (h : pySpace c = true) :
    dropSpaces (c :: t) = dropSpaces t := by
  simp [dropSpaces, List.dropWhile_cons, h]

theorem dropSpaces_idem (s : PyStr) : dropSpaces (dropSpaces s) = dropSpaces s := by
  induction s with
  | nil => rfl
  | cons c t ih =>
    by_cases h : pySpace c = true
    · rw [dropSpaces_space c t h]; exact ih
    · rw [Bool.not_eq_true] at h
      rw [dropSpaces_nonspace c t h, dropSpaces_nonspace c t h]

theorem takeWhile_app (p : Char → Bool) (a b : PyStr) (ha : ∀ c ∈ a, p c = true)
    (hb : ∀ c ∈ b.take 1, p c = false) :
    (a ++ b).takeWhile p = a := by
  induction a with
  | nil =>
    cases b with
    | nil => rfl
    | cons c t =>
      have hc : p c = false := hb c (by simp)
      simp [List.takeWhile_cons, hc]
  | cons c a2 ih =>
    have hc : p c = true := ha c (by simp)
    simp only [List.cons_append, List.takeWhile_cons, hc, if_true]
    rw [ih (fun d hd => ha d (by simp [hd]))]

theorem dropWhile_app (p : Char → Bool) (a b : PyStr) (ha : ∀ c ∈ a, p c = true)
    (hb : ∀ c ∈ b.take 1, p c = false) :
    (a ++ b).dropWhile p = b := by
  induction a with
  | nil =>
    cases b with
    | nil => rfl
    | cons c t =>
      have hc : p c = false := hb c (by simp)
      simp [List.dropWhile_cons, hc]
  | cons c a2 ih =>
    have hc : p c = true := ha c (by simp)
    simp only [List.cons_append, List.dropWhile_cons, hc, if_true]
    exact ih (fun d hd => ha d (by simp [hd]))

theorem takeWhile_mem_sat (p : Char → Bool) (l : PyStr) :
    ∀ c ∈ l.takeWhile p, p c = true := by
  induction l with
  | nil => intro c hc; simp at hc
  | cons d t ih =>
    intro c hc
    rw [List.takeWhile_cons] at hc
    by_cases hd : p d = true
    · rw [if_pos hd] at hc
      rcases List.mem_cons.mp hc with h | h
      · rw [h]; exact hd
      · exact ih c h
    · rw [Bool.not_eq_true] at hd
      rw [hd] at hc
      simp at hc

theorem expectChar_self (c : Char) (t : PyStr) : expectChar c (c :: t) = some t := by
  simp [expectChar]

theorem expectChar_ne (c d : Char) (t : PyStr) (h : d ≠ c) : expectChar c (d :: t) = none := by
  simp [expectChar, h]

theorem digit_not_space (c : Char) (h : c.isDigit = true) : pySpace c = false := by
  by_contra hc
  rw [Bool.not_eq_false] at hc
  simp only [pySpace, Bool.or_eq_true, decide_eq_true_eq] at hc
  rcases hc with ((((h1 | h1) | h1) | h1) | h1) | h1 <;> subst h1 <;>
    exact absurd h (by decide)

theorem space_ne_dash (c : Char) (h : pySpace c = true) : c ≠ '-' := by
  intro heq
  subst heq
  exact absurd h (by decide)

theorem digit_isNumChar (c : Char) (h : c.isDigit = true) : isNumChar c = true := by
  simp [isNumChar, h]

theorem isPrefixOf_append (a b : PyStr) : a.isPrefixOf (a ++ b) = true := by
  induction a with
  | nil => simp [List.isPrefixOf]
  | cons c t ih => simp [List.isPrefixOf, ih]

theorem matchOneItem_render (it : FloatItem) (rest : PyStr) (h : itemWF it) :
    matchOneItem (renderFloatItem it ++ rest) = some (dropSpaces rest) := by
  obtain ⟨hn, hw, hip, hipd, hfpd⟩ := h
  have hshape : renderFloatItem it ++ rest
      = '-' :: ' ' :: '_' ::
          (it.name ++ ':' :: ' ' :: (it.ip ++ '.' :: (it.fp ++ '\n' :: rest))) := by
    simp [renderFloatItem]
  rw [hshape]
  unfold matchOneItem
  rw [dropSpaces_nonspace _ _ (by decide : pySpace '-' = false), expectChar_self]
  simp only [Option.some_bind]
  rw [dropSpaces_space _ _ (by decide : pySpace ' ' = true),
    dropSpaces_nonspace _ _ (by decide : pySpace '_' = false), expectChar_self]
  simp only [Option.some_bind]
  have hna : ∀ c ∈ it.name, isWordChar c = true := fun c hc => List.all_eq_true.mp hw c hc
  have hcol : ∀ c ∈ (':' :: ' ' :: (it.ip ++ '.' :: (it.fp ++ '\n' :: rest))).take 1,
      isWordChar c = false := by
    intro c hc
    simp only [List.take, List.mem_singleton] at hc
    subst hc
    decide
  have ew1 : expectWord1 isWordChar
      (it.name ++ ':' :: ' ' :: (it.ip ++ '.' :: (it.fp ++ '\n' :: rest)))
      = some (it.name, ':' :: ' ' :: (it.ip ++ '.' :: (it.fp ++ '\n' :: rest))) := by
    unfold expectWord1
    rw [takeWhile_app _ _ _ hna hcol, dropWhile_app _ _ _ hna hcol, if_neg hn]
  rw [ew1]
  simp only [Option.some_bind]
  show (expectChar ':'
      (':' :: ' ' :: (it.ip ++ '.' :: (it.fp ++ '\n' :: rest)))).bind _ = _
  rw [expectChar_self]
  simp only [Option.some_bind]
  rw [dropSpaces_space _ _ (by decide : pySpace ' ' = true)]
  have hds : dropSpaces (it.ip ++ '.' :: (it.fp ++ '\n' :: rest))
      = it.ip ++ '.' :: (it.fp ++ '\n' :: rest) := by
    rcases hip3 : it.ip with _ | ⟨c, t⟩
    · exact absurd hip3 hip
    · have hcd : c.isDigit = true := List.all_eq_true.mp (hip3 ▸ hipd) c (by simp)
      simp only [List.cons_append]
      exact dropSpaces_nonspace _ _ (digit_not_space c hcd)
  rw [hds]
  have hrearr : it.ip ++ '.' :: (it.fp ++ '\n' :: rest)
      = (it.ip ++ '.' :: it.fp) ++ '\n' :: rest := by
    simp [List.append_assoc]
  have hnum : ∀ c ∈ it.ip ++ '.' :: it.fp, isNumChar c = true := by
    intro c hc
    rcases List.mem_append.mp hc with h2 | h2
    · exact digit_isNumChar c (List.all_eq_true.mp hipd c h2)
    · rcases List.mem_cons.mp h2 with h3 | h3
      · subst h3; decide
      · exact digit_isNumChar c (List.all_eq_true.mp hfpd c h3)
  have hnl : ∀ c ∈ ('\n' :: rest).take 1, isNumChar c = false := by
    intro c hc
    simp only [List.take, List.mem_singleton] at hc
    subst hc
    decide
  have ew2 : expectWord1 isNumChar (it.ip ++ '.' :: (it.fp ++ '\n' :: rest))
      = some (it.ip ++ '.' :: it.fp, '\n' :: rest) := by
    unfold expectWord1
    rw [hrearr, takeWhile_app _ _ _ hnum hnl, dropWhile_app _ _ _ hnum hnl,
      if_neg (by simp : ¬(it.ip ++ '.' :: it.fp = []))]
  rw [ew2]
  simp only [Option.some_bind]
  show some (dropSpaces ('\n' :: rest)) = some (dropSpaces rest)
  rw [dropSpaces_space _ _ (by decide : pySpace '\n' = true)]

theorem matchItemPattern_render (it : FloatItem) (rest : PyStr) (h : itemWF it) :
    matchItemPattern (renderFloatItem it ++ rest)
      = some ('_' :: it.name, it.ip ++ '.' :: it.fp, '\n' :: rest) := by
  obtain ⟨hn, hw, hip, hipd, hfpd⟩ := h
  have hshape : renderFloatItem it ++ rest
      = '-' :: ' ' :: '_' ::
          (it.name ++ ':' :: ' ' :: (it.ip ++ '.' :: (it.fp ++ '\n' :: rest))) := by
    simp [renderFloatItem]
  rw [hshape]
  unfold matchItemPattern
  rw [expectChar_self]
  simp only [Option.some_bind]
  rw [dropSpaces_space _ _ (by decide : pySpace ' ' = true),
    dropSpaces_nonspace _ _ (by decide : pySpace '_' = false), expectChar_self]
  simp only [Option.some_bind]
  have hna : ∀ c ∈ it.name, isWordChar c = true := fun c hc => List.all_eq_true.mp hw c hc
  have hcol : ∀ c ∈ (':' :: ' ' :: (it.ip ++ '.' :: (it.fp ++ '\n' :: rest))).take 1,
      isWordChar c = false := by
    intro c hc
    simp only [List.take, List.mem_singleton] at hc
    subst hc
    decide
  have ew1 : expectWord1 isWordChar
      (it.name ++ ':' :: ' ' :: (it.ip ++ '.' :: (it.fp ++ '\n' :: rest)))
      = some (it.name, ':' :: ' ' :: (it.ip ++ '.' :: (it.fp ++ '\n' :: rest))) := by
    unfold expectWord1
    rw [takeWhile_app _ _ _ hna hcol, dropWhile_app _ _ _ hna hcol, if_neg hn]
  rw [ew1]
  simp only [Option.some_bind]
  show (expectChar ':'
      (':' :: ' ' :: (it.ip ++ '.' :: (it.fp ++ '\n' :: rest)))).bind _ = _
  rw [expectChar_self]
  simp only [Option.some_bind]
  rw [dropSpaces_space _ _ (by decide : pySpace ' ' = true)]
  have hds : dropSpaces (it.ip ++ '.' :: (it.fp ++ '\n' :: rest))
      = it.ip ++ '.' :: (it.fp ++ '\n' :: rest) := by
    rcases hip3 : it.ip with _ | ⟨c, t⟩
    · exact absurd hip3 hip
    · have hcd : c.isDigit = true := List.all_eq_true.mp (hip3 ▸ hipd) c (by simp)
      simp only [List.cons_append]
      exact dropSpaces_nonspace _ _ (digit_not_space c hcd)
  rw [hds]
  have hrearr : it.ip ++ '.' :: (it.fp ++ '\n' :: rest)
      = (it.ip ++ '.' :: it.fp) ++ '\n' :: rest := by
    simp [List.append_assoc]
  have hnum : ∀ c ∈ it.ip ++ '.' :: it.fp, isNumChar c = true := by
    intro c hc
    rcases List.mem_append.mp hc with h2 | h2
    · exact digit_isNumChar c (List.all_eq_true.mp hipd c h2)
    · rcases List.mem_cons.mp h2 with h3 | h3
      · subst h3; decide
      · exact digit_isNumChar c (List.all_eq_true.mp hfpd c h3)
  have hnl : ∀ c ∈ ('\n' :: rest).take 1, isNumChar c = false := by
    intro c hc
    simp only [List.take, List.mem_singleton] at hc
    subst hc
    decide
  have ew2 : expectWord1 isNumChar (it.ip ++ '.' :: (it.fp ++ '\n' :: rest))
      = some (it.ip ++ '.' :: it.fp, '\n' :: rest) := by
    unfold expectWord1
    rw [hrearr, takeWhile_app _ _ _ hnum hnl, dropWhile_app _ _ _ hnum hnl,
      if_neg (by simp : ¬(it.ip ++ '.' :: it.fp = []))]
  rw [ew2]
  simp only [Option.some_bind]

theorem matchOneItem_dropSpaces (s : PyStr) :
    matchOneItem (dropSpaces s) = matchOneItem s := by
  unfold matchOneItem
  rw [dropSpaces_idem]

theorem matchItemsStar_render : ∀ (items : List FloatItem) (post : PyStr),
    (∀ it ∈ items, itemWF it) → matchOneItem post = none → items ≠ [] →
    matchItemsStar (renderFloatBlock items ++ post) = dropSpaces post := by
  intro items
  induction items with
  | nil => intro post h1 h2 h3; exact absurd rfl h3
  | cons it rest ih =>
    intro post hwf hpost hne
    have hit : itemWF it := hwf it (List.mem_cons_self _ _)
    have hassoc : renderFloatBlock (it :: rest) ++ post
        = renderFloatItem it ++ (renderFloatBlock rest ++ post) := by
      simp [renderFloatBlock]
    have hstep := matchOneItem_render it (renderFloatBlock rest ++ post) hit
    rw [hassoc, matchItemsStar_some _ _ hstep]
    cases rest with
    | nil =>
      have h0 : renderFloatBlock ([] : List FloatItem) ++ post = post := by
        simp [renderFloatBlock]
      rw [h0]
      apply matchItemsStar_none
      rw [matchOneItem_dropSpaces]
      exact hpost
    | cons it2 rest2 =>
      have hhead : dropSpaces (renderFloatBlock (it2 :: rest2) ++ post)
          = renderFloatBlock (it2 :: rest2) ++ post := by
        have h1 : renderFloatBlock (it2 :: rest2) ++ post
            = '-' :: ((' ' :: '_' ::
                (it2.name ++ ':' :: ' ' :: (it2.ip ++ '.' :: (it2.fp ++ ['\n']))))
                ++ (renderFloatBlock rest2 ++ post)) := by
          simp [renderFloatBlock, renderFloatItem]
        rw [h1]
        exact dropSpaces_nonspace _ _ (by decide)
      rw [hhead]
      exact ih post (fun x hx => hwf x (List.mem_cons_of_mem _ hx)) hpost (by simp)

theorem findFloatBlock_render (items : List FloatItem) (post : PyStr)
    (hwf : ∀ it ∈ items, itemWF it) (hpost : matchOneItem post = none) (hne : items ≠ []) :
    findFloatBlock (pstr "m_Floats:" ++ '\n' :: (renderFloatBlock items ++ post))
      = some (renderFloatBlock items ++ post.takeWhile pySpace) := by
  cases items with
  | nil => exact absurd rfl hne
  | cons it0 rest0 =>
    have hc : pstr "m_Floats:" ++ '\n' :: (renderFloatBlock (it0 :: rest0) ++ post)
        = 'm' :: (pstr "_Floats:" ++ '\n' :: (renderFloatBlock (it0 :: rest0) ++ post)) := rfl
    rw [hc]
    have hdrop0 : (pstr "m_Floats:" ++ ('\n' :: (renderFloatBlock (it0 :: rest0) ++ post))).drop 9
        = '\n' :: (renderFloatBlock (it0 :: rest0) ++ post) :=
      List.drop_left' (by decide)
    have hdrop : ('m' :: (pstr "_Floats:" ++ '\n' :: (renderFloatBlock (it0 :: rest0) ++ post))).drop 9
        = '\n' :: (renderFloatBlock (it0 :: rest0) ++ post) := hdrop0
    have hpre : (pstr "m_Floats:").isPrefixOf
        ('m' :: (pstr "_Floats:" ++ '\n' :: (renderFloatBlock (it0 :: rest0) ++ post))) = true :=
      isPrefixOf_append (pstr "m_Floats:") ('\n' :: (renderFloatBlock (it0 :: rest0) ++ post))
    have hBhead : renderFloatBlock (it0 :: rest0) ++ post
        = '-' :: ((' ' :: '_' ::
            (it0.name ++ ':' :: ' ' :: (it0.ip ++ '.' :: (it0.fp ++ ['\n']))))
            ++ (renderFloatBlock rest0 ++ post)) := by
      simp [renderFloatBlock, renderFloatItem]
    have hBpost : dropSpaces (renderFloatBlock (it0 :: rest0) ++ post)
        = renderFloatBlock (it0 :: rest0) ++ post := by
      rw [hBhead]
      exact dropSpaces_nonspace _ _ (by decide)
    have hstar : matchItemsStar (renderFloatBlock (it0 :: rest0) ++ post) = dropSpaces post :=
      matchItemsStar_render (it0 :: rest0) post hwf hpost (by simp)
    have hlenB : 0 < (renderFloatBlock (it0 :: rest0)).length := by
      simp [renderFloatBlock, renderFloatItem]
    have hdsle : (dropSpaces post).length ≤ post.length := lenDropWhile_le _ _
    have hcond : (dropSpaces post).length < (renderFloatBlock (it0 :: rest0) ++ post).length := by
      rw [List.length_append]
      omega
    have hsplit : post.takeWhile pySpace ++ post.dropWhile pySpace = post :=
      List.takeWhile_append_dropWhile pySpace post
    have hlen2 : (post.takeWhile pySpace).length + (post.dropWhile pySpace).length
        = post.length := by
      conv_rhs => rw [← hsplit]
      rw [List.length_append]
    have harith : (renderFloatBlock (it0 :: rest0) ++ post).length - (dropSpaces post).length
        = (renderFloatBlock (it0 :: rest0)).length + (post.takeWhile pySpace).length := by
      rw [List.length_append]
      have hds2 : (dropSpaces post).length = (post.dropWhile pySpace).length := rfl
      omega
    have htake : (renderFloatBlock (it0 :: rest0) ++ post).take
        ((renderFloatBlock (it0 :: rest0)).length + (post.takeWhile pySpace).length)
        = renderFloatBlock (it0 :: rest0) ++ post.takeWhile pySpace := by
      rw [List.take_append]
      congr 1
      have h3 := List.take_left (post.takeWhile pySpace) (post.dropWhile pySpace)
      rw [hsplit] at h3
      exact h3
    simp only [findFloatBlock]
    rw [if_pos hpre, hdrop, dropSpaces_space _ _ (by decide : pySpace '\n' = true), hBpost,
      hstar, if_pos hcond, harith, htake]

theorem findIter_some_eq (c : Char) (t n v r : PyStr)
    (h : matchItemPattern (c :: t) = some (n, v, r)) :
    findIter (c :: t) = (n, v) :: findIter r := by
  conv_lhs => rw [findIter]
  rw [h]

theorem findIter_none_eq (c : Char) (t : PyStr) (h : matchItemPattern (c :: t) = none) :
    findIter (c :: t) = findIter t := by
  conv_lhs => rw [findIter]
  rw [h]

theorem matchItemPattern_nodash (c : Char) (t : PyStr) (h : c ≠ '-') :
    matchItemPattern (c :: t) = none := by
  unfold matchItemPattern
  rw [expectChar_ne _ _ _ h]
  rfl

theorem findIter_nodash (s : PyStr) (h : ∀ c ∈ s, c ≠ '-') : findIter s = [] := by
  induction s with
  | nil => rw [findIter]
  | cons c t ih =>
    rw [findIter_none_eq c t (matchItemPattern_nodash c t (h c (by simp)))]
    exact ih (fun d hd => h d (by simp [hd]))

theorem findIter_render : ∀ (items : List FloatItem) (sp : PyStr),
    (∀ it ∈ items, itemWF it) → (∀ c ∈ sp, pySpace c = true) →
    findIter (renderFloatBlock items ++ sp)
      = items.map (fun it => ('_' :: it.name, it.ip ++ '.' :: it.fp)) := by
  intro items
  induction items with
  | nil =>
    intro sp hwf hsp
    simp only [renderFloatBlock, List.nil_append, List.map_nil]
    exact findIter_nodash sp (fun c hc => space_ne_dash c (hsp c hc))
  | cons it rest ih =>
    intro sp hwf hsp
    have hit : itemWF it := hwf it (List.mem_cons_self _ _)
    have hassoc : renderFloatBlock (it :: rest) ++ sp
        = renderFloatItem it ++ (renderFloatBlock rest ++ sp) := by
      simp [renderFloatBlock]
    have hm := matchItemPattern_render it (renderFloatBlock rest ++ sp) hit
    have hshape : renderFloatItem it ++ (renderFloatBlock rest ++ sp)
        = '-' :: ((' ' :: '_' ::
            (it.name ++ ':' :: ' ' :: (it.ip ++ '.' :: (it.fp ++ ['\n']))))
            ++ (renderFloatBlock rest ++ sp)) := by
      simp [renderFloatItem]
    rw [hassoc, hshape]
    rw [findIter_some_eq _ _ _ _ _ (by rw [← hshape]; exact hm)]
    rw [findIter_none_eq _ _ (matchItemPattern_nodash _ _ (by decide))]
    rw [ih sp (fun x hx => hwf x (List.mem_cons_of_mem _ hx)) hsp]
    simp

theorem pyFloat_render (ip fp : PyStr) (hip : ip ≠ []) (hipd : ip.all Char.isDigit = true)
    (hfpd : fp.all Char.isDigit = true) :
    pyFloat (ip ++ '.' :: fp)
      = some ((digitsToNat ip : ℚ) + (digitsToNat fp : ℚ) / (10 : ℚ) ^ fp.length) := by
  have hd : ∀ c ∈ ip, Char.isDigit c = true := fun c hc => List.all_eq_true.mp hipd c hc
  have hdot : ∀ c ∈ ('.' :: fp).take 1, Char.isDigit c = false := by
    intro c hc
    simp only [List.take, List.mem_singleton] at hc
    subst hc
    decide
  have h1 : (ip ++ '.' :: fp).takeWhile Char.isDigit = ip := takeWhile_app _ _ _ hd hdot
  have h2 : (ip ++ '.' :: fp).dropWhile Char.isDigit = '.' :: fp := dropWhile_app _ _ _ hd hdot
  simp only [pyFloat, h1, h2]
  simp only [if_true]
  rw [if_pos ⟨hfpd, Or.inl hip⟩]

theorem dictSet_append {α : Type} (d : List (PyStr × α)) (k : PyStr) (v : α)
    (h : dictGet d k = none) : dictSet d k v = d ++ [(k, v)] := by
  induction d with
  | nil => rfl
  | cons e t ih =>
    obtain ⟨k2, v2⟩ := e
    by_cases hk : k2 = k
    · exfalso
      simp [dictGet, hk] at h
    · simp only [dictGet, if_neg hk] at h
      simp only [dictSet, if_neg hk, List.cons_append, List.cons.injEq, true_and]
      exact ih h

theorem dictGet_append_none {α : Type} (d : List (PyStr × α)) (k k2 : PyStr) (v : α)
    (h1 : dictGet d k2 = none) (h2 : k ≠ k2) : dictGet (d ++ [(k, v)]) k2 = none := by
  induction d with
  | nil => simp [dictGet, h2]
  | cons e t ih =>
    obtain ⟨k3, v3⟩ := e
    by_cases hk : k3 = k2
    · exfalso
      simp [dictGet, hk] at h1
    · simp only [dictGet, if_neg hk] at h1
      simp only [List.cons_append, dictGet, if_neg hk]
      exact ih h1

theorem floatsFold_render : ∀ (items : List FloatItem) (d : List (PyStr × ℚ)),
    (∀ it ∈ items, itemWF it) →
    (items.map (fun it => it.name)).Nodup →
    (∀ it ∈ items, dictGet d ('_' :: it.name) = none) →
    (items.map (fun it => ('_' :: it.name, it.ip ++ '.' :: it.fp))).foldl
      (fun acc p =>
        match acc with
        | none => none
        | some dd =>
          match pyFloat p.2 with
          | none => none
          | some v => some (dictSet dd p.1 v))
      (some d)
    = some (d ++ items.map (fun it => ('_' :: it.name, itemVal it))) := by
  intro items
  induction items with
  | nil => intro d h1 h2 h3; simp
  | cons it rest ih =>
    intro d hwf hnd hd
    obtain ⟨hn, hw, hip, hipd, hfpd⟩ := hwf it (List.mem_cons_self _ _)
    have hpf : pyFloat (it.ip ++ '.' :: it.fp) = some (itemVal it) :=
      pyFloat_render _ _ hip hipd hfpd
    simp only [List.map_cons, List.foldl_cons, hpf]
    have hset : dictSet d ('_' :: it.name) (itemVal it) = d ++ [('_' :: it.name, itemVal it)] :=
      dictSet_append _ _ _ (hd it (List.mem_cons_self _ _))
    rw [hset]
    have hnd2 : (rest.map (fun it2 => it2.name)).Nodup := (List.nodup_cons.mp hnd).2
    have hnotin : it.name ∉ rest.map (fun it2 => it2.name) := (List.nodup_cons.mp hnd).1
    have hd2 : ∀ it2 ∈ rest,
        dictGet (d ++ [('_' :: it.name, itemVal it)]) ('_' :: it2.name) = none := by
      intro it2 hit2
      apply dictGet_append_none
      · exact hd it2 (List.mem_cons_of_mem _ hit2)
      · intro heq
        have hne2 : it.name = it2.name := by
          injection heq
        exact hnotin (by rw [hne2]; exact List.mem_map_of_mem _ hit2)
    rw [ih (d ++ [('_' :: it.name, itemVal it)])
      (fun x hx => hwf x (List.mem_cons_of_mem _ hx)) hnd2 hd2]
    simp

theorem findFloatBlock_not_contains (content : PyStr)
    (h : strContains content (pstr "m_Floats:") = false) : findFloatBlock content = none := by
  induction content with
  | nil => rfl
  | cons c t ih =>
    unfold strContains at h
    rw [Bool.or_eq_false_iff] at h
    simp only [findFloatBlock]
    rw [h.1]
    simp only [Bool.false_eq_true, if_false]
    exact ih h.2

/-- C7: the analyzer's floats extraction.  (a) A content with no
`m_Floats:` marker yields the empty floats map without error.  (b) For any
well-formed nonempty list of scalar-property items with distinct names,
rendered as the contiguous block `m_Floats:` newline `- _<name>: <int>.<frac>`
lines followed by any text that starts no further item, the analyzer
parses exactly those items, mapping each `_<name>` to its numeric value. -/
theorem analyzer_floats_spec :
    (∀ content : PyStr, strContains content (pstr "m_Floats:") = false →
      analyzeFloats content = some [])
    ∧ (∀ (items : List FloatItem) (post : PyStr),
        items ≠ [] → (∀ it ∈ items, itemWF it) →
        (items.map (fun it => it.name)).Nodup →
        matchOneItem post = none →
        analyzeFloats (pstr "m_Floats:" ++ '\n' :: (renderFloatBlock items ++ post))
          = some (items.map (fun it => ('_' :: it.name, itemVal it)))) := by
  constructor
  · intro content h
    unfold analyzeFloats
    rw [findFloatBlock_not_contains content h]
  · intro items post hne hwf hnd hpost
    unfold analyzeFloats
    rw [findFloatBlock_render items post hwf hpost hne]
    show (findIter (renderFloatBlock items ++ post.takeWhile pySpace)).foldl
        (fun acc p =>
          match acc with
          | none => none
          | some d =>
            match pyFloat p.2 with
            | none => none
            | some v => some (dictSet d p.1 v)) (some [])
      = some (items.map (fun it => ('_' :: it.name, itemVal it)))
    rw [findIter_render items (post.takeWhile pySpace) hwf (takeWhile_mem_sat pySpace post)]
    have hfold := floatsFold_render items [] hwf hnd (fun it2 hit2 => rfl)
    rw [hfold]
    simp

def wItems : List FloatItem :=
  [⟨pstr "Metallic", pstr "0", pstr "5"⟩, ⟨pstr "Glossiness", pstr "0", pstr "8"⟩]

theorem analyzer_floats_spec_witness :
    analyzeFloats (pstr "m_Floats:"
        ++ '\n' :: (renderFloatBlock wItems ++ pstr "m_Colors: 0"))
      = some [(pstr "_Metallic", itemVal ⟨pstr "Metallic", pstr "0", pstr "5"⟩),
              (pstr "_Glossiness", itemVal ⟨pstr "Glossiness", pstr "0", pstr "8"⟩)]
    ∧ analyzeFloats (pstr "no floats here") = some [] := by
  constructor
  · exact analyzer_floats_spec.2 wItems (pstr "m_Colors: 0") (by decide) (by decide)
      (by decide) (by decide)
  · exact analyzer_floats_spec.1 (pstr "no floats here") (by decide)
